import Mathlib

/-!
Verification of the whisker-direction stimulus-generation and preference-measurement
logic embedded in `doc/Tutorials/som_retinotopy.ipynb` (the `Whiskers` pattern
generator, the MED map, `distribute_angles`, `LinearBoundary`, and
`measure_deflection_pref`).

Grids are shallowly embedded as a shape `(rows, cols)` together with a total data
function `ℕ → ℕ → ℝ`; claims about cells quantify over in-bounds indices.  The
process-wide random seed generator (`numbergen.UniformRandom(seed=25)`, whose
source is not part of this repository) is modelled from the spec as a
monotonically advancing counter, and the von Mises draw as an arbitrary
deterministic function of `(mu, kappa, seed)` passed as a parameter.
-/

/-- A 2D numpy-style array: a shape together with a total data function.
Reads outside the shape are never relied upon by any theorem. -/
structure Grid where
  rows : ℕ
  cols : ℕ
  data : ℕ → ℕ → ℝ

/-- Embeds `numpy.repeat(p, density, 0)`: each row of `p` is repeated `density` times,
so output row `i` reads input row `i / density`. -/
def repeatAxis0 (p : Grid) (density : ℕ) : Grid :=
  ⟨p.rows * density, p.cols, fun i j => p.data (i / density) j⟩

/-- Embeds `numpy.repeat(q, density, 1)`: each column of `q` is repeated `density`
times, so output column `j` reads input column `j / density`. -/
def repeatAxis1 (q : Grid) (density : ℕ) : Grid :=
  ⟨q.rows, q.cols * density, fun i j => q.data i (j / density)⟩

/-- Embeds `Whiskers.whisker_to_barrel(pattern, density)`:
`numpy.repeat(numpy.repeat(pattern, density, 0), density, 1)` — stretches a
pattern defined in whisker units to the size of the sheet. -/
def whisker_to_barrel (pattern : Grid) (density : ℕ) : Grid :=
  repeatAxis1 (repeatAxis0 pattern density) density

/-- Python negative-index semantics: a negative index `k` into an axis of
length `n` addresses position `k + n`. -/
def pyWrap (n : ℕ) (k : ℤ) : ℤ := if k < 0 then k + n else k

/-- Row index written by the single-whisker branch:
`numpy.floor(self.whisker/p.Wy)`.  Both operands are Python 2 integers, so `/`
is floor division; `numpy.floor` then leaves the value unchanged. -/
def whiskerRow (Wy : ℕ) (w : ℤ) : ℤ := Int.fdiv w Wy

/-- Column index written by the single-whisker branch:
`numpy.fmod(self.whisker, p.Wy)` — C-style remainder, sign of the dividend. -/
def whiskerCol (Wy : ℕ) (w : ℤ) : ℤ := Int.tmod w Wy

/-- The single-whisker magnitude grid:
`magnitudes = numpy.zeros([Wx, Wy]); magnitudes[floor(w/Wy)][fmod(w, Wy)] = 1.0`,
with Python negative-index wrapping on each axis. -/
noncomputable def magnitudes (Wx Wy : ℕ) (w : ℤ) : Grid :=
  ⟨Wx, Wy, fun i j =>
    if (i : ℤ) = pyWrap Wx (whiskerRow Wy w) ∧ (j : ℤ) = pyWrap Wy (whiskerCol Wy w)
    then 1 else 0⟩

/-- Embeds `numpy.linspace(start, stop, num, endpoint=False)`: sample `k` is
`start + (stop - start) * k / num`. -/
noncomputable def linspaceNoEndpoint (start stop : ℝ) (num : ℕ) : ℕ → ℝ :=
  fun k => start + (stop - start) * k / num

/-- Embeds `numpy.reshape(L, [r, c])` of a flat sequence, row-major. -/
def reshape2 (L : ℕ → ℝ) (r c : ℕ) : Grid :=
  ⟨r, c, fun i j => L (i * c + j)⟩

/-- Embeds `numpy.tile(A, (tx, ty))`: the block `A` replicated `tx` times down and
`ty` times across; cell `(i, j)` reads `A[i mod rows][j mod cols]`. -/
def npTile (A : Grid) (tx ty : ℕ) : Grid :=
  ⟨tx * A.rows, ty * A.cols, fun i j => A.data (i % A.rows) (j % A.cols)⟩

/-- The map of maximally-effective directions for Layer_4:
`MEDs = numpy.tile(numpy.reshape(numpy.linspace(0, 2π, barrel_density**2,
endpoint=False), [d, d]), (Wx, Wy))`. -/
noncomputable def MEDs (Wx Wy d : ℕ) : Grid :=
  npTile (reshape2 (linspaceNoEndpoint 0 (2 * Real.pi) (d ^ 2)) d d) Wx Wy

/-- Modelled from the spec: the process-wide random seed generator
`random_seed_generator = numbergen.UniformRandom(lbound=0, ubound=1000, seed=25)`
(the `numbergen` library source is not part of this repository).  Per the spec,
it is a monotonically advancing seed sequence advanced exactly once per
requested draw, yielding a distinct seed per draw; draw `n` is modelled as
returning the sequence index `n` itself. -/
structure SeedGen where
  counter : ℕ

/-- A single numpy-style element assignment `x[i, j] = v` on a data function. -/
noncomputable def update2 (x : ℕ → ℕ → ℝ) (i j : ℕ) (v : ℝ) : ℕ → ℕ → ℝ :=
  fun i' j' => if i' = i ∧ j' = j then v else x i' j'

/-- The inner loop `for j in numpy.arange(original_angles.shape[1])` of
`Whiskers.distribute_angles`, processing columns `0, …, n-1` of row `i`:
each iteration draws one seed from the advancing sequence and stores one
von Mises sample `sample(a[i,j], k, seed)`. -/
noncomputable def innerLoop (sample : ℝ → ℝ → ℕ → ℝ) (a : Grid) (k : ℝ) (i : ℕ) :
    ℕ → ((ℕ → ℕ → ℝ) × SeedGen) → ((ℕ → ℕ → ℝ) × SeedGen)
  | 0, st => st
  | n + 1, st =>
    let st' := innerLoop sample a k i n st
    (update2 st'.1 i n (sample (a.data i n) k st'.2.counter), ⟨st'.2.counter + 1⟩)

/-- The outer loop `for i in numpy.arange(original_angles.shape[0])` of
`Whiskers.distribute_angles`, processing rows `0, …, n-1`. -/
noncomputable def outerLoop (sample : ℝ → ℝ → ℕ → ℝ) (a : Grid) (k : ℝ) :
    ℕ → ((ℕ → ℕ → ℝ) × SeedGen) → ((ℕ → ℕ → ℝ) × SeedGen)
  | 0, st => st
  | n + 1, st => innerLoop sample a k n a.cols (outerLoop sample a k n st)

/-- Embeds `Whiskers.distribute_angles(original_angles, k)`: if the argument has size 1
it takes the scalar path, drawing a single seed and a single von Mises sample
(modelled from the spec: `numbergen.VonMisesRandom`, external to this
repository, broadcasts its `mu` argument, so the size-1 array keeps its shape);
otherwise it fills `numpy.zeros(shape)` elementwise, drawing one fresh seed from
`random_seed_generator` per element in row-major loop order. -/
noncomputable def distribute_angles (sample : ℝ → ℝ → ℕ → ℝ) (a : Grid) (k : ℝ)
    (g : SeedGen) : Grid × SeedGen :=
  if a.rows * a.cols = 1 then
    (⟨a.rows, a.cols, fun i j => sample (a.data i j) k g.counter⟩, ⟨g.counter + 1⟩)
  else
    let st := outerLoop sample a k a.rows ((fun _ _ => 0), g)
    (⟨a.rows, a.cols, st.1⟩, st.2)

/-- The mutable state of a `LinearBoundary` pattern generator: the spatial
coordinate grids `pattern_x`/`pattern_y` (set up by the external
`PatternGenerator` machinery) plus the generic pattern parameters. -/
structure LinearBoundaryState where
  pattern_x : Grid
  pattern_y : Grid
  offset : ℝ
  x : ℝ
  y : ℝ
  size : ℝ
  orientation : ℝ

/-- Embeds `LinearBoundary.function`: executes `self.pattern_x += self.offset` (an
in-place mutation of the stored coordinate field) and then returns
`numpy.where(self.pattern_x <= 0.0, 1.0, 0.0)`, evaluated on the updated field.
Returns the output array together with the updated object state. -/
noncomputable def LinearBoundary.function (s : LinearBoundaryState) :
    Grid × LinearBoundaryState :=
  let px : Grid := ⟨s.pattern_x.rows, s.pattern_x.cols,
    fun i j => s.pattern_x.data i j + s.offset⟩
  (⟨px.rows, px.cols, fun i j => if px.data i j ≤ 0 then 1 else 0⟩,
   { s with pattern_x := px })

/-- Repeated invocation of `LinearBoundary.function` on the same object,
keeping the evolving state. -/
noncomputable def LinearBoundary.iterate (s : LinearBoundaryState) :
    ℕ → LinearBoundaryState
  | 0 => s
  | n + 1 => (LinearBoundary.function (LinearBoundary.iterate s n)).2

/-- A fresh `LinearBoundary(xdensity=1.0, ydensity=1.0, x=…, y=…, bounds=…,
size=…, orientation=…)` as constructed inside `Whiskers.function`: the `offset`
parameter is not passed, so it holds its `PatternGenerator` default `0.0`;
the coordinate grids are those set up by the external machinery. -/
noncomputable def freshLinearBoundary (bpx bpy : Grid) (x y size orientation : ℝ) :
    LinearBoundaryState :=
  ⟨bpx, bpy, 0, x, y, size, orientation⟩

/-- Embeds `numpy.ones([Wx, Wy]) * orientation`. -/
noncomputable def onesGrid (Wx Wy : ℕ) (v : ℝ) : Grid :=
  ⟨Wx, Wy, fun _ _ => 1 * v⟩

/-- The branch condition `(self.whisker < p.Wx*p.Wy)` of `Whiskers.function`:
`true` selects the single-whisker branch, `false` the whole-array
(`LinearBoundary`) branch. -/
def singleWhiskerSelected (Wx Wy : ℕ) (w : ℤ) : Bool :=
  decide (w < (Wx * Wy : ℕ))

/-- Embeds `param.Integer` construction-time validation: the declared bounds, when
present, are checked against the assigned value; a declaration without a
`bounds` argument accepts every integer. -/
def paramIntegerAccepts (bounds : Option (ℤ × ℤ)) (w : ℤ) : Bool :=
  match bounds with
  | none => true
  | some (lo, hi) => decide (lo ≤ w) && decide (w ≤ hi)

/-- The `whisker` parameter of `Whiskers` is declared
`param.Integer(default=p.Wx*p.Wy, doc=…)` with no `bounds` argument (contrast
`Wx`, `Wy` and `barrel_density`, which do declare bounds). -/
def whiskerParamBounds : Option (ℤ × ℤ) := none

/-- Construction-time acceptance of a `whisker` value by the `Whiskers`
pattern generator. -/
def whiskerParamAccepts (w : ℤ) : Bool :=
  paramIntegerAccepts whiskerParamBounds w

/-- Embeds `Whiskers.function`: the per-invocation stimulus computation.  `Wx`, `Wy`,
`d` are the global parameters `p.Wx`, `p.Wy`, `p.barrel_density`; `whisker`,
`orientation`, `kappa`, `x`, `y`, `size` are the generator's parameter values;
`sample` is the external von Mises draw (a deterministic function of mean,
concentration and seed); `bpx`/`bpy` are the coordinate grids the external
`PatternGenerator` machinery supplies to the nested `LinearBoundary`; `g` is
the state of the process-wide seed generator.  Mirrors the source line by
line, including the immediately overwritten `dirs` assignment in the
single-whisker branch. -/
noncomputable def Whiskers.function (Wx Wy d : ℕ) (whisker : ℤ)
    (orientation kappa x y size : ℝ) (sample : ℝ → ℝ → ℕ → ℝ)
    (bpx bpy : Grid) (g : SeedGen) : Grid × SeedGen :=
  let m : Grid :=
    if singleWhiskerSelected Wx Wy whisker then
      let mags := magnitudes Wx Wy whisker
      let m0 := whisker_to_barrel mags d
      let dirs := onesGrid Wx Wy orientation
      m0
    else
      whisker_to_barrel
        (LinearBoundary.function (freshLinearBoundary bpx bpy x y size orientation)).1 d
  let dg := distribute_angles sample (onesGrid Wx Wy orientation) kappa g
  let directions := whisker_to_barrel dg.1 d
  (⟨m.rows, m.cols, fun i j =>
      m.data i j * ((1 + Real.cos |directions.data i j - (MEDs Wx Wy d).data i j|) / 2)⟩,
   dg.2)

/-- Variant of `Whiskers.function` with the dead `dirs` assignment of the single-whisker
branch removed (the refactoring the spec proposes). -/
noncomputable def Whiskers.function_variant (Wx Wy d : ℕ) (whisker : ℤ)
    (orientation kappa x y size : ℝ) (sample : ℝ → ℝ → ℕ → ℝ)
    (bpx bpy : Grid) (g : SeedGen) : Grid × SeedGen :=
  let m : Grid :=
    if singleWhiskerSelected Wx Wy whisker then
      let mags := magnitudes Wx Wy whisker
      let m0 := whisker_to_barrel mags d
      m0
    else
      whisker_to_barrel
        (LinearBoundary.function (freshLinearBoundary bpx bpy x y size orientation)).1 d
  let dg := distribute_angles sample (onesGrid Wx Wy orientation) kappa g
  let directions := whisker_to_barrel dg.1 d
  (⟨m.rows, m.cols, fun i j =>
      m.data i j * ((1 + Real.cos |directions.data i j - (MEDs Wx Wy d).data i j|) / 2)⟩,
   dg.2)

/-- The magnitude field `m` as computed by `Whiskers.function` (the local
variable `m` of the source). -/
noncomputable def Whiskers.magnitudeField (Wx Wy d : ℕ) (whisker : ℤ)
    (x y size orientation : ℝ) (bpx bpy : Grid) : Grid :=
  if singleWhiskerSelected Wx Wy whisker then
    whisker_to_barrel (magnitudes Wx Wy whisker) d
  else
    whisker_to_barrel
      (LinearBoundary.function (freshLinearBoundary bpx bpy x y size orientation)).1 d

/-- The expanded noisy-direction field `directions` as computed by
`Whiskers.function` (the local variable `directions` of the source). -/
noncomputable def Whiskers.directionsField (Wx Wy d : ℕ)
    (orientation kappa : ℝ) (sample : ℝ → ℝ → ℕ → ℝ) (g : SeedGen) : Grid :=
  whisker_to_barrel (distribute_angles sample (onesGrid Wx Wy orientation) kappa g).1 d

/-- A feature descriptor handed to the external `FeatureMaps` driver:
`Feature(name=…, range=…, step=…, cyclic=…)`. -/
structure Feature where
  name : String
  lo : ℝ
  hi : ℝ
  step : ℝ
  cyclic : Bool

/-- An interaction with the external collaborators performed by
`measure_deflection_pref`. -/
inductive DeflectionCall
  | featureMaps (features : List Feature) (scale offset : ℝ) (weightedAverage : Bool)
  | setSubplots

/-- Embeds `measure_deflection_pref(num_deflection, scale, offset, …)`: raises
`ValueError("num_deflection must be greater than 0")` when
`num_deflection <= 0`, before constructing any feature or invoking the
external `FeatureMaps` sweep; otherwise sets
`step_deflection = pi/num_deflection`, builds the whisker and orientation
features, runs `FeatureMaps` and then `Subplotting.set_subplots`.  The
returned list records the external calls in order. -/
noncomputable def measure_deflection_pref (Wx Wy : ℕ) (num_deflection : ℤ)
    (scale offset : ℝ) (weighted_average : Bool) :
    Except String (List DeflectionCall) :=
  if num_deflection ≤ 0 then
    Except.error ("num_deflection must be greater than 0")
  else
    let step_deflection := Real.pi / num_deflection
    Except.ok
      [DeflectionCall.featureMaps
        [⟨"whisker", 0, (Wx * Wy : ℕ) - 1, 1, false⟩,
         ⟨"orientation", 0, 2 * Real.pi, step_deflection, true⟩]
        scale offset weighted_average,
       DeflectionCall.setSubplots]

/-- Claim C1: for every grid `G` and every valid density (odd, ≥ 1),
`whisker_to_barrel` returns an array of shape `(G.rows·density, G.cols·density)`
in which every output cell `(i, j)` equals input cell `(i / density, j / density)`;
it is a pure function of its arguments (embedded as a Lean function, hence
side-effect free and deterministic). -/
theorem whisker_to_barrel_spec (G : Grid) (density : ℕ)
    (hodd : Odd density) (hpos : 1 ≤ density) :
    (whisker_to_barrel G density).rows = G.rows * density ∧
    (whisker_to_barrel G density).cols = G.cols * density ∧
    (∀ i j, i < G.rows * density → j < G.cols * density →
      (whisker_to_barrel G density).data i j = G.data (i / density) (j / density)) ∧
    whisker_to_barrel G density = whisker_to_barrel G density := by
  refine ⟨rfl, rfl, ?_, rfl⟩
  intro i j _ _
  rfl

/-- Witness for C1: a concrete 2×3 grid expanded with density 3. -/
theorem whisker_to_barrel_spec_witness :
    (whisker_to_barrel ⟨2, 3, fun i j => (i : ℝ) + j⟩ 3).rows = 2 * 3 ∧
    (whisker_to_barrel ⟨2, 3, fun i j => (i : ℝ) + j⟩ 3).data 4 7 =
      (1 : ℝ) + 2 := by
  have h := whisker_to_barrel_spec ⟨2, 3, fun i j => (i : ℝ) + j⟩ 3
    (by decide) (by decide)
  refine ⟨h.1, ?_⟩
  have h2 := h.2.2.1 4 7 (by norm_num) (by norm_num)
  simpa using h2

/-! ### Characterization of the `distribute_angles` loops -/

theorem innerLoop_counter (sample : ℝ → ℝ → ℕ → ℝ) (a : Grid) (k : ℝ) (i : ℕ) :
    ∀ n st, (innerLoop sample a k i n st).2.counter = st.2.counter + n := by
  intro n
  induction n with
  | zero => intro st; rfl
  | succ n ih =>
    intro st
    show (innerLoop sample a k i n st).2.counter + 1 = st.2.counter + (n + 1)
    rw [ih st]
    ring

theorem innerLoop_untouched (sample : ℝ → ℝ → ℕ → ℝ) (a : Grid) (k : ℝ) (i : ℕ) :
    ∀ n st i' j', (i' ≠ i ∨ n ≤ j') →
      (innerLoop sample a k i n st).1 i' j' = st.1 i' j' := by
  intro n
  induction n with
  | zero => intro st i' j' _; rfl
  | succ n ih =>
    intro st i' j' h
    show update2 (innerLoop sample a k i n st).1 i n _ i' j' = st.1 i' j'
    have hne : ¬(i' = i ∧ j' = n) := by
      rcases h with h | h
      · exact fun hc => h hc.1
      · exact fun hc => by omega
    rw [update2, if_neg hne]
    have h' : i' ≠ i ∨ n ≤ j' := by
      rcases h with h | h
      · exact Or.inl h
      · exact Or.inr (by omega)
    exact ih st i' j' h'

theorem innerLoop_value (sample : ℝ → ℝ → ℕ → ℝ) (a : Grid) (k : ℝ) (i : ℕ) :
    ∀ n st j, j < n →
      (innerLoop sample a k i n st).1 i j =
        sample (a.data i j) k (st.2.counter + j) := by
  intro n
  induction n with
  | zero => intro st j hj; omega
  | succ n ih =>
    intro st j hj
    show update2 (innerLoop sample a k i n st).1 i n _ i j = _
    by_cases hjn : j = n
    · subst hjn
      rw [update2, if_pos ⟨rfl, rfl⟩, innerLoop_counter]
    · rw [update2, if_neg (by exact fun hc => hjn hc.2)]
      exact ih st j (by omega)

theorem outerLoop_counter (sample : ℝ → ℝ → ℕ → ℝ) (a : Grid) (k : ℝ) :
    ∀ n st, (outerLoop sample a k n st).2.counter = st.2.counter + n * a.cols := by
  intro n
  induction n with
  | zero =>
    intro st
    show st.2.counter = st.2.counter + 0 * a.cols
    omega
  | succ n ih =>
    intro st
    show (innerLoop sample a k n a.cols (outerLoop sample a k n st)).2.counter = _
    rw [innerLoop_counter, ih st]
    ring

theorem outerLoop_value (sample : ℝ → ℝ → ℕ → ℝ) (a : Grid) (k : ℝ) :
    ∀ n st i j, i < n → j < a.cols →
      (outerLoop sample a k n st).1 i j =
        sample (a.data i j) k (st.2.counter + i * a.cols + j) := by
  intro n
  induction n with
  | zero => intro st i j hi _; omega
  | succ n ih =>
    intro st i j hi hj
    show (innerLoop sample a k n a.cols (outerLoop sample a k n st)).1 i j = _
    by_cases hin : i = n
    · subst hin
      rw [innerLoop_value sample a k i a.cols _ j hj, outerLoop_counter]
    · rw [innerLoop_untouched sample a k n a.cols _ i j (Or.inl hin)]
      exact ih st i j (by omega) hj

/-- Row-major flattening `(i, j) ↦ i*c + j` is injective on `j, j' < c`. -/
theorem rowMajor_inj (c i j i' j' : ℕ) (hj : j < c) (hj' : j' < c)
    (h : i * c + j = i' * c + j') : i = i' ∧ j = j' := by
  have hc : 0 < c := by omega
  have h1 : (i * c + j) / c = i := by
    rw [mul_comm, Nat.mul_add_div hc, Nat.div_eq_of_lt hj, Nat.add_zero]
  have h2 : (i' * c + j') / c = i' := by
    rw [mul_comm, Nat.mul_add_div hc, Nat.div_eq_of_lt hj', Nat.add_zero]
  have hii : i = i' := by rw [← h1, ← h2, h]
  subst hii
  exact ⟨rfl, Nat.add_left_cancel h⟩

/-- Claim C8: for an array-valued `mean_angle`, `distribute_angles` returns an
array of the same shape, drawing one sample per element (the value at `(i, j)`
is the von Mises draw at mean `a[i,j]` with some seed `seedOf i j`), where the
seeds are taken from the monotonically advancing seed sequence (all lie in the
window `[g.counter, g'.counter)` consumed by the call) and are pairwise
distinct, so no two elements can receive the same seed. -/
theorem distribute_angles_spec (sample : ℝ → ℝ → ℕ → ℝ) (a : Grid) (k : ℝ)
    (g : SeedGen) (hr : 1 ≤ a.rows) (hc : 1 ≤ a.cols) :
    (distribute_angles sample a k g).1.rows = a.rows ∧
    (distribute_angles sample a k g).1.cols = a.cols ∧
    ∃ seedOf : ℕ → ℕ → ℕ,
      (∀ i j, i < a.rows → j < a.cols →
        (distribute_angles sample a k g).1.data i j =
          sample (a.data i j) k (seedOf i j)) ∧
      (∀ i j i' j', i < a.rows → j < a.cols → i' < a.rows → j' < a.cols →
        ¬(i = i' ∧ j = j') → seedOf i j ≠ seedOf i' j') ∧
      (∀ i j, i < a.rows → j < a.cols →
        g.counter ≤ seedOf i j ∧
        seedOf i j < (distribute_angles sample a k g).2.counter) ∧
      g.counter < (distribute_angles sample a k g).2.counter := by
  by_cases hone : a.rows * a.cols = 1
  · have hrc : a.rows = 1 ∧ a.cols = 1 := by
      have h1 : a.rows ≤ a.rows * a.cols := Nat.le_mul_of_pos_right _ (by omega)
      have h2 : a.cols ≤ a.rows * a.cols := Nat.le_mul_of_pos_left _ (by omega)
      omega
    rw [distribute_angles, if_pos hone]
    refine ⟨rfl, rfl, fun _ _ => g.counter, ?_, ?_, ?_, ?_⟩
    · intro i j _ _; rfl
    · intro i j i' j' hi hj hi' hj' hne
      exact absurd ⟨by omega, by omega⟩ hne
    · intro i j _ _
      exact ⟨le_refl _, Nat.lt_succ_self _⟩
    · exact Nat.lt_succ_self _
  · rw [distribute_angles, if_neg hone]
    have hcount : (outerLoop sample a k a.rows ((fun _ _ => 0), g)).2.counter
        = g.counter + a.rows * a.cols := by
      rw [outerLoop_counter]
    refine ⟨rfl, rfl, fun i j => g.counter + i * a.cols + j, ?_, ?_, ?_, ?_⟩
    · intro i j hi hj
      exact outerLoop_value sample a k a.rows _ i j hi hj
    · intro i j i' j' hi hj hi' hj' hne heq
      have heq2 : g.counter + i * a.cols + j = g.counter + i' * a.cols + j' := heq
      have heq3 : i * a.cols + j = i' * a.cols + j' := by omega
      exact hne (rowMajor_inj a.cols i j i' j' hj hj' heq3)
    · intro i j hi hj
      show g.counter ≤ g.counter + i * a.cols + j ∧
        g.counter + i * a.cols + j <
          (outerLoop sample a k a.rows ((fun _ _ => 0), g)).2.counter
      rw [hcount]
      have hblock : i * a.cols + a.cols ≤ a.rows * a.cols := by
        calc i * a.cols + a.cols = (i + 1) * a.cols := by ring
          _ ≤ a.rows * a.cols := Nat.mul_le_mul_right _ (by omega)
      exact ⟨by omega, by omega⟩
    · show g.counter < (outerLoop sample a k a.rows ((fun _ _ => 0), g)).2.counter
      rw [hcount]
      have hpos : 0 < a.rows * a.cols := Nat.mul_pos (by omega) (by omega)
      omega

/-- Witness for C8: a concrete 2×2 input grid, the identity-like sample
function, and the initial seed state. -/
theorem distribute_angles_spec_witness :
    (distribute_angles (fun mu _ _ => mu) ⟨2, 2, fun _ _ => (0 : ℝ)⟩ 1 ⟨0⟩).1.rows = 2 ∧
    (distribute_angles (fun mu _ _ => mu) ⟨2, 2, fun _ _ => (0 : ℝ)⟩ 1 ⟨0⟩).1.cols = 2 := by
  have h := distribute_angles_spec (fun mu _ _ => mu) ⟨2, 2, fun _ _ => (0 : ℝ)⟩ 1 ⟨0⟩
    (by norm_num) (by norm_num)
  exact ⟨h.1, h.2.1⟩

/-- On a nonnegative whisker number, Python floor division agrees with
natural-number division. -/
theorem whiskerRow_natCast (Wy m : ℕ) : whiskerRow Wy (m : ℤ) = ((m / Wy : ℕ) : ℤ) := by
  rw [whiskerRow, Int.fdiv_eq_ediv _ (by positivity)]
  exact_mod_cast (Int.ofNat_ediv m Wy).symm

/-- On a nonnegative whisker number, C-style `fmod` agrees with
natural-number modulus. -/
theorem whiskerCol_natCast (Wy m : ℕ) : whiskerCol Wy (m : ℤ) = ((m % Wy : ℕ) : ℤ) := by
  rw [whiskerCol, Int.tmod_eq_emod (by positivity) (by positivity)]
  exact_mod_cast (Int.ofNat_emod m Wy).symm

/-- Claim C9: in the single-whisker branch, under `0 ≤ whisker < Wx·Wy` with
`Wx ≥ 1`, `Wy ≥ 1`, the computed indices `floor(whisker/Wy)` and
`fmod(whisker, Wy)` lie in `[0, Wx)` and `[0, Wy)` respectively, so the write
into the `(Wx, Wy)` magnitudes grid is in bounds and the negative-index
(out-of-bounds) handling never fires. -/
theorem whisker_indices_in_bounds (Wx Wy : ℕ) (w : ℤ)
    (hWx : 1 ≤ Wx) (hWy : 1 ≤ Wy) (h0 : 0 ≤ w) (hlt : w < (Wx * Wy : ℕ)) :
    0 ≤ whiskerRow Wy w ∧ whiskerRow Wy w < Wx ∧
    0 ≤ whiskerCol Wy w ∧ whiskerCol Wy w < Wy ∧
    pyWrap Wx (whiskerRow Wy w) = whiskerRow Wy w ∧
    pyWrap Wy (whiskerCol Wy w) = whiskerCol Wy w := by
  lift w to ℕ using h0 with m
  have hdiv : whiskerRow Wy (m : ℤ) = ((m / Wy : ℕ) : ℤ) := whiskerRow_natCast Wy m
  have hmod : whiskerCol Wy (m : ℤ) = ((m % Wy : ℕ) : ℤ) := whiskerCol_natCast Wy m
  have hm : m < Wx * Wy := by exact_mod_cast hlt
  have hdivlt : m / Wy < Wx := (Nat.div_lt_iff_lt_mul (by omega)).mpr (by omega)
  have hmodlt : m % Wy < Wy := Nat.mod_lt _ (by omega)
  rw [hdiv, hmod]
  refine ⟨?_, ?_, ?_, ?_, ?_, ?_⟩
  · exact_mod_cast Nat.zero_le _
  · exact_mod_cast hdivlt
  · exact_mod_cast Nat.zero_le _
  · exact_mod_cast hmodlt
  · rw [pyWrap, if_neg (by exact_mod_cast Nat.not_lt_zero _)]
  · rw [pyWrap, if_neg (by exact_mod_cast Nat.not_lt_zero _)]

/-- Witness for C9: with the default 5×5 whisker array, `whisker = 13` maps
to row `2` and column `3`, both in bounds. -/
theorem whisker_indices_in_bounds_witness :
    0 ≤ whiskerRow 5 13 ∧ whiskerRow 5 13 < 5 ∧
    0 ≤ whiskerCol 5 13 ∧ whiskerCol 5 13 < 5 ∧
    pyWrap 5 (whiskerRow 5 13) = whiskerRow 5 13 ∧
    pyWrap 5 (whiskerCol 5 13) = whiskerCol 5 13 :=
  whisker_indices_in_bounds 5 5 13 (by norm_num) (by norm_num) (by norm_num)
    (by norm_num)

/-- Claim C2: for every `whisker` in `[0, Wx·Wy)`, the single-whisker magnitude
field has shape `(Wx·d, Wy·d)`, takes only the values `1.0` and `0.0`, and the
value is `1.0` exactly on the contiguous `d×d` block whose whisker position is
`(whisker div Wy, whisker mod Wy)`. -/
theorem single_whisker_block (Wx Wy d : ℕ) (w : ℤ)
    (hWx : 1 ≤ Wx) (hWy : 1 ≤ Wy) (hd : 1 ≤ d) (h0 : 0 ≤ w)
    (hlt : w < (Wx * Wy : ℕ)) :
    (whisker_to_barrel (magnitudes Wx Wy w) d).rows = Wx * d ∧
    (whisker_to_barrel (magnitudes Wx Wy w) d).cols = Wy * d ∧
    whiskerRow Wy w = ((w.toNat / Wy : ℕ) : ℤ) ∧
    whiskerCol Wy w = ((w.toNat % Wy : ℕ) : ℤ) ∧
    ∀ i j,
      ((whisker_to_barrel (magnitudes Wx Wy w) d).data i j = 1 ∨
       (whisker_to_barrel (magnitudes Wx Wy w) d).data i j = 0) ∧
      ((whisker_to_barrel (magnitudes Wx Wy w) d).data i j = 1 ↔
        ((w.toNat / Wy) * d ≤ i ∧ i < (w.toNat / Wy + 1) * d ∧
         (w.toNat % Wy) * d ≤ j ∧ j < (w.toNat % Wy + 1) * d)) := by
  lift w to ℕ using h0 with m
  have hd0 : 0 < d := by omega
  have hdiv : whiskerRow Wy (m : ℤ) = ((m / Wy : ℕ) : ℤ) := whiskerRow_natCast Wy m
  have hmod : whiskerCol Wy (m : ℤ) = ((m % Wy : ℕ) : ℤ) := whiskerCol_natCast Wy m
  have htn : (m : ℤ).toNat = m := Int.toNat_natCast m
  have hwrapr : pyWrap Wx (whiskerRow Wy (m : ℤ)) = ((m / Wy : ℕ) : ℤ) := by
    rw [hdiv, pyWrap, if_neg (by exact_mod_cast Nat.not_lt_zero _)]
  have hwrapc : pyWrap Wy (whiskerCol Wy (m : ℤ)) = ((m % Wy : ℕ) : ℤ) := by
    rw [hmod, pyWrap, if_neg (by exact_mod_cast Nat.not_lt_zero _)]
  refine ⟨rfl, rfl, by rw [hdiv, htn], by rw [hmod, htn], ?_⟩
  intro i j
  have hcell : (whisker_to_barrel (magnitudes Wx Wy (m : ℤ)) d).data i j =
      (if ((i / d : ℕ) : ℤ) = pyWrap Wx (whiskerRow Wy (m : ℤ)) ∧
          ((j / d : ℕ) : ℤ) = pyWrap Wy (whiskerCol Wy (m : ℤ))
       then (1 : ℝ) else 0) := rfl
  rw [htn]
  constructor
  · rw [hcell]
    by_cases hc : ((i / d : ℕ) : ℤ) = pyWrap Wx (whiskerRow Wy (m : ℤ)) ∧
        ((j / d : ℕ) : ℤ) = pyWrap Wy (whiskerCol Wy (m : ℤ))
    · exact Or.inl (if_pos hc)
    · exact Or.inr (if_neg hc)
  · rw [hcell, hwrapr, hwrapc]
    have hnat : (((i / d : ℕ) : ℤ) = ((m / Wy : ℕ) : ℤ) ∧
        ((j / d : ℕ) : ℤ) = ((m % Wy : ℕ) : ℤ)) ↔
        (i / d = m / Wy ∧ j / d = m % Wy) := by
      constructor
      · intro h; exact ⟨by exact_mod_cast h.1, by exact_mod_cast h.2⟩
      · intro h; exact ⟨by exact_mod_cast h.1, by exact_mod_cast h.2⟩
    constructor
    · intro h1
      by_cases hc : ((i / d : ℕ) : ℤ) = ((m / Wy : ℕ) : ℤ) ∧
          ((j / d : ℕ) : ℤ) = ((m % Wy : ℕ) : ℤ)
      · obtain ⟨hci, hcj⟩ := hnat.mp hc
        have hi2 : m / Wy ≤ i / d ∧ i / d < m / Wy + 1 := by omega
        have hj2 : m % Wy ≤ j / d ∧ j / d < m % Wy + 1 := by omega
        refine ⟨(Nat.le_div_iff_mul_le hd0).mp hi2.1,
          (Nat.div_lt_iff_lt_mul hd0).mp hi2.2,
          (Nat.le_div_iff_mul_le hd0).mp hj2.1,
          (Nat.div_lt_iff_lt_mul hd0).mp hj2.2⟩
      · rw [if_neg hc] at h1
        exact absurd h1 (by norm_num)
    · intro hbounds
      have hci : i / d = m / Wy := by
        have h1 : m / Wy ≤ i / d := (Nat.le_div_iff_mul_le hd0).mpr hbounds.1
        have h2 : i / d < m / Wy + 1 := (Nat.div_lt_iff_lt_mul hd0).mpr hbounds.2.1
        omega
      have hcj : j / d = m % Wy := by
        have h1 : m % Wy ≤ j / d := (Nat.le_div_iff_mul_le hd0).mpr hbounds.2.2.1
        have h2 : j / d < m % Wy + 1 := (Nat.div_lt_iff_lt_mul hd0).mpr hbounds.2.2.2
        omega
      rw [if_pos (hnat.mpr ⟨hci, hcj⟩)]

/-- Witness for C2: with `Wx = Wy = 2`, `d = 3` and `whisker = 2` (row 1,
column 0), the expanded magnitude field is `1.0` at cell `(3, 0)` and `0.0`
at cell `(0, 0)`. -/
theorem single_whisker_block_witness :
    (whisker_to_barrel (magnitudes 2 2 2) 3).data 3 0 = 1 ∧
    (whisker_to_barrel (magnitudes 2 2 2) 3).data 0 0 ≠ 1 := by
  have h := single_whisker_block 2 2 3 2 (by norm_num) (by norm_num)
    (by norm_num) (by norm_num) (by norm_num)
  constructor
  · exact ((h.2.2.2.2 3 0).2).mpr (by decide)
  · intro hcontra
    have hb := ((h.2.2.2.2 0 0).2).mp hcontra
    omega

/-- The `endpoint=False` linspace over `[0, 2π)` is strictly increasing in the
sample index. -/
theorem linspace_two_pi_strictMono (n : ℕ) (hn : 0 < n) (k l : ℕ) (hkl : k < l) :
    linspaceNoEndpoint 0 (2 * Real.pi) n k < linspaceNoEndpoint 0 (2 * Real.pi) n l := by
  unfold linspaceNoEndpoint
  have h1 : (0 : ℝ) < n := by exact_mod_cast hn
  have h2 : (0 : ℝ) < 2 * Real.pi := by positivity
  have h3 : (k : ℝ) < l := by exact_mod_cast hkl
  simp only [zero_add, sub_zero]
  exact (div_lt_div_right h1).mpr (mul_lt_mul_of_pos_left h3 h2)

/-- Claim C4: the MED map has the shape of the BarrelGrid `(Wx·d, Wy·d)`; it is
the `d×d` reshape of the `endpoint`-excluded linear ramp of `d²` values over
`[0, 2π)`, tiled `(Wx, Wy)` times (so it is `d`-periodic in both axes); the
`d²` ramp values are pairwise distinct and all lie in `[0, 2π)`; and its
construction is deterministic (repeated construction yields an identical map). -/
theorem MEDs_spec (Wx Wy d : ℕ) (hd : 1 ≤ d) :
    (MEDs Wx Wy d).rows = Wx * d ∧
    (MEDs Wx Wy d).cols = Wy * d ∧
    (∀ i j, i < d → j < d →
      (MEDs Wx Wy d).data i j =
        linspaceNoEndpoint 0 (2 * Real.pi) (d ^ 2) (i * d + j)) ∧
    (∀ i j, (MEDs Wx Wy d).data (i + d) j = (MEDs Wx Wy d).data i j ∧
            (MEDs Wx Wy d).data i (j + d) = (MEDs Wx Wy d).data i j) ∧
    (∀ k l, k < d ^ 2 → l < d ^ 2 → k ≠ l →
      linspaceNoEndpoint 0 (2 * Real.pi) (d ^ 2) k ≠
        linspaceNoEndpoint 0 (2 * Real.pi) (d ^ 2) l) ∧
    (∀ k, k < d ^ 2 →
      0 ≤ linspaceNoEndpoint 0 (2 * Real.pi) (d ^ 2) k ∧
      linspaceNoEndpoint 0 (2 * Real.pi) (d ^ 2) k < 2 * Real.pi) ∧
    MEDs Wx Wy d = MEDs Wx Wy d := by
  have hd2 : 0 < d ^ 2 := by positivity
  refine ⟨rfl, rfl, ?_, ?_, ?_, ?_, rfl⟩
  · intro i j hi hj
    show linspaceNoEndpoint 0 (2 * Real.pi) (d ^ 2) ((i % d) * d + (j % d)) = _
    rw [Nat.mod_eq_of_lt hi, Nat.mod_eq_of_lt hj]
  · intro i j
    constructor
    · show linspaceNoEndpoint 0 (2 * Real.pi) (d ^ 2) (((i + d) % d) * d + (j % d)) =
        linspaceNoEndpoint 0 (2 * Real.pi) (d ^ 2) ((i % d) * d + (j % d))
      rw [Nat.add_mod_right]
    · show linspaceNoEndpoint 0 (2 * Real.pi) (d ^ 2) ((i % d) * d + ((j + d) % d)) =
        linspaceNoEndpoint 0 (2 * Real.pi) (d ^ 2) ((i % d) * d + (j % d))
      rw [Nat.add_mod_right]
  · intro k l hk hl hne
    rcases Nat.lt_or_ge k l with h | h
    · exact ne_of_lt (linspace_two_pi_strictMono _ hd2 k l h)
    · have hlk : l < k := by omega
      exact (ne_of_lt (linspace_two_pi_strictMono _ hd2 l k hlk)).symm
  · intro k hk
    unfold linspaceNoEndpoint
    have h1 : (0 : ℝ) < (d ^ 2 : ℕ) := by exact_mod_cast hd2
    have h3 : (k : ℝ) < (d ^ 2 : ℕ) := by exact_mod_cast hk
    constructor
    · simp only [zero_add, sub_zero]
      positivity
    · simp only [zero_add, sub_zero]
      rw [div_lt_iff h1]
      have h2 : (0 : ℝ) < 2 * Real.pi := by positivity
      exact (mul_lt_mul_left h2).mpr h3

/-- Witness for C4: `Wx = Wy = 1`, `d = 2` — the map has shape `(2, 2)` and
the first two ramp values differ. -/
theorem MEDs_spec_witness :
    (MEDs 1 1 2).rows = 1 * 2 ∧
    linspaceNoEndpoint 0 (2 * Real.pi) (2 ^ 2) 0 ≠
      linspaceNoEndpoint 0 (2 * Real.pi) (2 ^ 2) 1 := by
  have h := MEDs_spec 1 1 2 (by norm_num)
  exact ⟨h.1, h.2.2.2.2.1 0 1 (by norm_num) (by norm_num) (by norm_num)⟩

/-- Iterating `LinearBoundary.function` never changes the `offset` field. -/
theorem LinearBoundary.iterate_offset (s : LinearBoundaryState) (n : ℕ) :
    (LinearBoundary.iterate s n).offset = s.offset := by
  induction n with
  | zero => rfl
  | succ n ih =>
    show (LinearBoundary.iterate s n).offset = s.offset
    exact ih

/-- After `n` invocations the stored `pattern_x` has accumulated `n` copies of
the offset. -/
theorem LinearBoundary.iterate_pattern_x (s : LinearBoundaryState) (n : ℕ) :
    ∀ i j, (LinearBoundary.iterate s n).pattern_x.data i j =
      s.pattern_x.data i j + n * s.offset := by
  induction n with
  | zero => intro i j; simp [LinearBoundary.iterate]
  | succ n ih =>
    intro i j
    show (LinearBoundary.iterate s n).pattern_x.data i j +
        (LinearBoundary.iterate s n).offset = _
    rw [ih i j, LinearBoundary.iterate_offset]
    push_cast
    ring

/-- Claim C10: `LinearBoundary.function` is not pure — each call destructively
adds `offset` to the stored `pattern_x` field before returning
`where(pattern_x ≤ 0, 1.0, 0.0)` computed from the updated field; all other
fields are left unchanged, and with a nonzero offset repeated calls keep
shifting the stored coordinate (hence the boundary position). -/
theorem linear_boundary_function_effects (s : LinearBoundaryState) :
    ((LinearBoundary.function s).2.pattern_x.rows = s.pattern_x.rows ∧
     (LinearBoundary.function s).2.pattern_x.cols = s.pattern_x.cols ∧
     ∀ i j, (LinearBoundary.function s).2.pattern_x.data i j =
       s.pattern_x.data i j + s.offset) ∧
    (∀ i j, (LinearBoundary.function s).1.data i j =
      if (LinearBoundary.function s).2.pattern_x.data i j ≤ 0 then 1 else 0) ∧
    ((LinearBoundary.function s).2.pattern_y = s.pattern_y ∧
     (LinearBoundary.function s).2.offset = s.offset ∧
     (LinearBoundary.function s).2.x = s.x ∧
     (LinearBoundary.function s).2.y = s.y ∧
     (LinearBoundary.function s).2.size = s.size ∧
     (LinearBoundary.function s).2.orientation = s.orientation) ∧
    (∀ n i j, (LinearBoundary.iterate s n).pattern_x.data i j =
      s.pattern_x.data i j + n * s.offset) ∧
    (s.offset ≠ 0 → ∀ n, 1 ≤ n → ∀ i j,
      (LinearBoundary.iterate s n).pattern_x.data i j ≠ s.pattern_x.data i j) := by
  refine ⟨⟨rfl, rfl, fun i j => rfl⟩, fun i j => rfl,
    ⟨rfl, rfl, rfl, rfl, rfl, rfl⟩,
    LinearBoundary.iterate_pattern_x s, ?_⟩
  intro hoff n hn i j
  rw [LinearBoundary.iterate_pattern_x s n i j]
  have hne : (n : ℝ) * s.offset ≠ 0 := by
    apply mul_ne_zero _ hoff
    exact_mod_cast Nat.pos_iff_ne_zero.mp (by omega)
  intro hcontra
  exact hne (by linarith)

/-- Witness for C10: a concrete 1×1 state with offset 1; after two calls the
stored coordinate has moved from 0 to 2 and differs from the original. -/
theorem linear_boundary_function_effects_witness :
    (LinearBoundary.iterate
      ⟨⟨1, 1, fun _ _ => 0⟩, ⟨1, 1, fun _ _ => 0⟩, 1, 0, 0, 0, 0⟩ 2).pattern_x.data 0 0 =
      (0 : ℝ) + 2 * 1 ∧
    (LinearBoundary.iterate
      ⟨⟨1, 1, fun _ _ => 0⟩, ⟨1, 1, fun _ _ => 0⟩, 1, 0, 0, 0, 0⟩ 2).pattern_x.data 0 0 ≠
      (0 : ℝ) := by
  have h := linear_boundary_function_effects
    ⟨⟨1, 1, fun _ _ => 0⟩, ⟨1, 1, fun _ _ => 0⟩, 1, 0, 0, 0, 0⟩
  constructor
  · have h4 := h.2.2.2.1 2 0 0
    simpa using h4
  · have h5 := h.2.2.2.2 (by norm_num) 2 (by norm_num) 0 0
    simpa using h5

/-- Claim C5: for every `num_deflection ≤ 0` the preference measurer raises the
validation error immediately — the result is the `ValueError` and carries no
external `FeatureMaps` (network) call; for every `num_deflection > 0` it
proceeds, invoking the feature sweep with orientation step
`π / num_deflection`. -/
theorem measure_deflection_pref_spec (Wx Wy : ℕ) (n : ℤ) (scale offset : ℝ)
    (wa : Bool) :
    (n ≤ 0 →
      measure_deflection_pref Wx Wy n scale offset wa =
        Except.error ("num_deflection must be greater than 0")) ∧
    (0 < n →
      ∃ calls, measure_deflection_pref Wx Wy n scale offset wa = Except.ok calls ∧
        ∃ features, DeflectionCall.featureMaps features scale offset wa ∈ calls ∧
          ∃ f, f ∈ features ∧ f.name = "orientation" ∧ f.step = Real.pi / n ∧
            f.cyclic = true) := by
  constructor
  · intro hle
    rw [measure_deflection_pref, if_pos hle]
  · intro hpos
    rw [measure_deflection_pref, if_neg (by omega)]
    refine ⟨_, rfl, ?_⟩
    refine ⟨[⟨"whisker", 0, (Wx * Wy : ℕ) - 1, 1, false⟩,
      ⟨"orientation", 0, 2 * Real.pi, Real.pi / n, true⟩], ?_, ?_⟩
    · exact List.mem_cons_self _ _
    · exact ⟨⟨"orientation", 0, 2 * Real.pi, Real.pi / n, true⟩,
        List.mem_cons_of_mem _ (List.mem_cons_self _ _), rfl, rfl, rfl⟩

/-- Witness for C5: `num_deflection = -3` is rejected, `num_deflection = 8`
proceeds with step `π/8`. -/
theorem measure_deflection_pref_spec_witness :
    measure_deflection_pref 5 5 (-3) 1 0 false =
      Except.error ("num_deflection must be greater than 0") ∧
    ∃ calls, measure_deflection_pref 5 5 8 1 0 false = Except.ok calls ∧
      ∃ features, DeflectionCall.featureMaps features 1 0 false ∈ calls ∧
        ∃ f, f ∈ features ∧ f.name = "orientation" ∧ f.step = Real.pi / (8 : ℤ) ∧
          f.cyclic = true := by
  constructor
  · exact (measure_deflection_pref_spec 5 5 (-3) 1 0 false).1 (by norm_num)
  · exact (measure_deflection_pref_spec 5 5 8 1 0 false).2 (by norm_num)

/-- Claim C7: the `dirs` array assigned inside the single-whisker branch is
never read before being overwritten by the noisy-direction computation and
draws no random values, so removing that assignment yields an identical
response pattern and an identical final random-seed state, for every input
and every `whisker` value. -/
theorem dead_dirs_assignment_removable (Wx Wy d : ℕ) (whisker : ℤ)
    (orientation kappa x y size : ℝ) (sample : ℝ → ℝ → ℕ → ℝ)
    (bpx bpy : Grid) (g : SeedGen) :
    Whiskers.function Wx Wy d whisker orientation kappa x y size sample bpx bpy g =
      Whiskers.function_variant Wx Wy d whisker orientation kappa x y size sample
        bpx bpy g := rfl

/-- Amended C6: the whole-array (`LinearBoundary`) branch is selected for
every `whisker ≥ Wx·Wy` (the code branches on `whisker < Wx*Wy`), all such
values produce the same output as `whisker = Wx*Wy`, and construction performs
no range validation on `whisker` (its `param.Integer` declaration has no
bounds), so no out-of-range value is rejected. -/
theorem boundary_mode_for_all_ge (Wx Wy d : ℕ) (w : ℤ)
    (orientation kappa x y size : ℝ) (sample : ℝ → ℝ → ℕ → ℝ)
    (bpx bpy : Grid) (g : SeedGen) :
    (singleWhiskerSelected Wx Wy w = false ↔ ((Wx * Wy : ℕ) : ℤ) ≤ w) ∧
    whiskerParamAccepts w = true ∧
    (((Wx * Wy : ℕ) : ℤ) ≤ w →
      Whiskers.function Wx Wy d w orientation kappa x y size sample bpx bpy g =
        Whiskers.function Wx Wy d ((Wx * Wy : ℕ) : ℤ) orientation kappa x y size
          sample bpx bpy g) := by
  refine ⟨?_, rfl, ?_⟩
  · rw [singleWhiskerSelected, decide_eq_false_iff_not, not_lt]
  · intro h
    have h1 : singleWhiskerSelected Wx Wy w = false := by
      rw [singleWhiskerSelected, decide_eq_false_iff_not, not_lt]
      exact h
    have h2 : singleWhiskerSelected Wx Wy ((Wx * Wy : ℕ) : ℤ) = false := by
      rw [singleWhiskerSelected, decide_eq_false_iff_not]
      exact lt_irrefl _
    rw [Whiskers.function, Whiskers.function, h1, h2]
    rfl

/-- Counterexample for C6 as stated: with the default `Wx = Wy = 5`, the
out-of-range value `whisker = 26 ≠ 25 = Wx·Wy` is accepted at construction
(not rejected) and still triggers whole-array mode, behaving exactly like
`whisker = 25`. -/
theorem whisker_validation_counterexample :
    whiskerParamAccepts 26 = true ∧
    singleWhiskerSelected 5 5 26 = false ∧
    (26 : ℤ) ≠ ((5 * 5 : ℕ) : ℤ) ∧
    Whiskers.function 5 5 1 26 0 1 0 0 1 (fun mu _ _ => mu)
        ⟨5, 5, fun _ _ => 0⟩ ⟨5, 5, fun _ _ => 0⟩ ⟨0⟩ =
      Whiskers.function 5 5 1 ((5 * 5 : ℕ) : ℤ) 0 1 0 0 1 (fun mu _ _ => mu)
        ⟨5, 5, fun _ _ => 0⟩ ⟨5, 5, fun _ _ => 0⟩ ⟨0⟩ := by
  refine ⟨rfl, by decide, by decide, ?_⟩
  rfl

/-- Witness for the amended C6: `Wx = Wy = 2` and the out-of-range
`whisker = 9` is accepted and behaves like `whisker = 4`. -/
theorem boundary_mode_for_all_ge_witness :
    whiskerParamAccepts 9 = true ∧
    Whiskers.function 2 2 1 9 0 1 0 0 1 (fun mu _ _ => mu)
        ⟨2, 2, fun _ _ => 0⟩ ⟨2, 2, fun _ _ => 0⟩ ⟨0⟩ =
      Whiskers.function 2 2 1 ((2 * 2 : ℕ) : ℤ) 0 1 0 0 1 (fun mu _ _ => mu)
        ⟨2, 2, fun _ _ => 0⟩ ⟨2, 2, fun _ _ => 0⟩ ⟨0⟩ := by
  have h := boundary_mode_for_all_ge 2 2 1 9 0 1 0 0 1 (fun mu _ _ => mu)
    ⟨2, 2, fun _ _ => 0⟩ ⟨2, 2, fun _ _ => 0⟩ ⟨0⟩
  exact ⟨h.2.1, h.2.2 (by norm_num)⟩

/-- A `where(cond, 1.0, 0.0)`-style value is either 0 or 1. -/
theorem ite_one_zero_cases (P : Prop) [Decidable P] :
    (if P then (1 : ℝ) else 0) = 0 ∨ (if P then (1 : ℝ) else 0) = 1 := by
  by_cases h : P
  · exact Or.inr (if_pos h)
  · exact Or.inl (if_neg h)

/-- Every cell of the magnitude field is `0.0` or `1.0`, in both the
single-whisker and the whole-array branch. -/
theorem magnitudeField_zero_or_one (Wx Wy d : ℕ) (whisker : ℤ)
    (x y size orientation : ℝ) (bpx bpy : Grid) (i j : ℕ) :
    (Whiskers.magnitudeField Wx Wy d whisker x y size orientation bpx bpy).data i j = 0 ∨
    (Whiskers.magnitudeField Wx Wy d whisker x y size orientation bpx bpy).data i j = 1 := by
  rw [Whiskers.magnitudeField]
  by_cases hb : singleWhiskerSelected Wx Wy whisker = true
  · rw [if_pos hb]
    exact ite_one_zero_cases _
  · rw [if_neg hb]
    exact ite_one_zero_cases _

/-- Claim C3: the returned response pattern equals, elementwise,
`m * (1 + cos|directions − MEDs|) / 2`; consequently every response value lies
in `[0, 1]`; and wherever the sampled (expanded) direction equals the unit's
MED value, the response equals `m` exactly. -/
theorem whiskers_response_spec (Wx Wy d : ℕ) (whisker : ℤ)
    (orientation kappa x y size : ℝ) (sample : ℝ → ℝ → ℕ → ℝ)
    (bpx bpy : Grid) (g : SeedGen) :
    (∀ i j,
      (Whiskers.function Wx Wy d whisker orientation kappa x y size sample
          bpx bpy g).1.data i j =
        (Whiskers.magnitudeField Wx Wy d whisker x y size orientation bpx bpy).data i j *
          ((1 + Real.cos
            |(Whiskers.directionsField Wx Wy d orientation kappa sample g).data i j -
              (MEDs Wx Wy d).data i j|) / 2)) ∧
    (∀ i j,
      0 ≤ (Whiskers.function Wx Wy d whisker orientation kappa x y size sample
          bpx bpy g).1.data i j ∧
      (Whiskers.function Wx Wy d whisker orientation kappa x y size sample
          bpx bpy g).1.data i j ≤ 1) ∧
    (∀ i j,
      (Whiskers.directionsField Wx Wy d orientation kappa sample g).data i j =
        (MEDs Wx Wy d).data i j →
      (Whiskers.function Wx Wy d whisker orientation kappa x y size sample
          bpx bpy g).1.data i j =
        (Whiskers.magnitudeField Wx Wy d whisker x y size orientation bpx bpy).data i j) := by
  have hform : ∀ i j,
      (Whiskers.function Wx Wy d whisker orientation kappa x y size sample
          bpx bpy g).1.data i j =
        (Whiskers.magnitudeField Wx Wy d whisker x y size orientation bpx bpy).data i j *
          ((1 + Real.cos
            |(Whiskers.directionsField Wx Wy d orientation kappa sample g).data i j -
              (MEDs Wx Wy d).data i j|) / 2) := fun i j => rfl
  refine ⟨hform, ?_, ?_⟩
  · intro i j
    rw [hform i j]
    set t := |(Whiskers.directionsField Wx Wy d orientation kappa sample g).data i j -
      (MEDs Wx Wy d).data i j| with ht
    have hc1 : -1 ≤ Real.cos t := Real.neg_one_le_cos t
    have hc2 : Real.cos t ≤ 1 := Real.cos_le_one t
    have hf1 : 0 ≤ (1 + Real.cos t) / 2 := by linarith
    have hf2 : (1 + Real.cos t) / 2 ≤ 1 := by linarith
    rcases magnitudeField_zero_or_one Wx Wy d whisker x y size orientation bpx bpy i j
      with hm | hm
    · rw [hm]
      constructor <;> linarith [hf1, hf2]
    · rw [hm]
      constructor <;> linarith [hf1, hf2]
  · intro i j hdir
    rw [hform i j, hdir]
    simp

/-- Witness for C3: `Wx = Wy = d = 1`, `whisker = 0`, zero orientation,
noise-free sample — the sampled direction equals the MED value `0`, so the
response equals the magnitude field, and the response is nonnegative. -/
theorem whiskers_response_spec_witness :
    (Whiskers.function 1 1 1 0 0 1 0 0 1 (fun mu _ _ => mu)
        ⟨1, 1, fun _ _ => 0⟩ ⟨1, 1, fun _ _ => 0⟩ ⟨0⟩).1.data 0 0 =
      (Whiskers.magnitudeField 1 1 1 0 0 0 1 0
        ⟨1, 1, fun _ _ => 0⟩ ⟨1, 1, fun _ _ => 0⟩).data 0 0 ∧
    0 ≤ (Whiskers.function 1 1 1 0 0 1 0 0 1 (fun mu _ _ => mu)
        ⟨1, 1, fun _ _ => 0⟩ ⟨1, 1, fun _ _ => 0⟩ ⟨0⟩).1.data 0 0 := by
  have h := whiskers_response_spec 1 1 1 0 0 1 0 0 1 (fun mu _ _ => mu)
    ⟨1, 1, fun _ _ => 0⟩ ⟨1, 1, fun _ _ => 0⟩ ⟨0⟩
  have hdir : (Whiskers.directionsField 1 1 1 0 1 (fun mu _ _ => mu) ⟨0⟩).data 0 0 =
      (MEDs 1 1 1).data 0 0 := by
    show (1 : ℝ) * 0 = 0 + (2 * Real.pi - 0) * ((0 * 1 + 0 : ℕ) : ℝ) / ((1 ^ 2 : ℕ) : ℝ)
    norm_num
  exact ⟨h.2.2 0 0 hdir, (h.2.1 0 0).1⟩
